import Mathlib

/-!
Verification of the benchmark-result aggregation engine (log parsing /
timeout classification / multi-seed reconciliation / PAR-2 scoring) of the
sst-sat tools.

The Python sources embedded here:
  * tools/parse_results.py   — `_compute_par2_and_solved`, the single-run
    timeout classifier, the per-case multi-seed aggregation (combined
    outcome label, numeric-field clearing, PAR-2-convention time
    averaging), and the average-of-seeds / best-of-seeds PAR-2 scores.
  * tools/parse_histogram.py — `aggregate_bins` and the percentage
    recomputation of `write_csv`.
  * tools/plot_prop_histogram.py — `aggregate_histogram` (index-weighted
    distribution).
  * tools/unified_parser.py  — the "simulated time" extraction of
    `parse_satsolver_log`.

Modelling conventions: Python floats are represented by `ℚ`; Python dicts
keyed by strings by association lists (`List (String × _)`), where a dict
update over existing keys keeps the entry position and a fresh key appends
(insertion order); Python sets of strings by `Finset String` (iteration
order of a set is unspecified, and the code only folds commutative
operations over them).  In `ℚ`, `x / 0 = 0`, which coincides with the
source's guarded divisions that substitute `0.0` for an empty denominator.
-/

/-- The closed set of per-run outcome labels produced by the extractor and
the timeout classifier (`result` values in the Python dicts). -/
inductive Outcome where
  | SAT
  | UNSAT
  | TIMEOUT
  | ERROR
  | UNKNOWN
deriving DecidableEq, Repr

/-- One parsed execution (a "RunRecord"): the fields of the per-log result
dict that the classifier / reconciler / scorer consult.  `stats` holds the
optional numeric fields (`decisions`, `conflicts`, ...) as an association
list; an absent key models an absent dict key. -/
structure RunRecord where
  testCase : String
  result : Outcome
  simTimeMs : ℚ
  stats : List (String × ℚ)
deriving DecidableEq, Repr

/-- Lookup of an optional numeric field of a record (`r.get(key)`,
`None` when absent). -/
def RunRecord.statOf (r : RunRecord) (k : String) : Option ℚ :=
  (r.stats.find? (fun p => p.1 = k)).map Prod.snd

/-- `_avg_of` of tools/parse_results.py: mean of a list of values, `0`
when the list is empty. -/
def avgOf (l : List ℚ) : ℚ :=
  if l = [] then 0 else l.sum / l.length

/-- In `ℚ` (where division by zero is zero) `_avg_of` is sum over
length unconditionally. -/
theorem avgOf_eq_sum_div_length (l : List ℚ) : avgOf l = l.sum / l.length := by
  unfold avgOf
  split
  · subst l; simp
  · rfl

/-- Excluded from PAR-2: `result_type in ('ERROR', 'UNKNOWN')`. -/
def isExcludedOutcome (o : Outcome) : Bool :=
  o = Outcome.ERROR ∨ o = Outcome.UNKNOWN

/-- The accumulator of the loop of `_compute_par2_and_solved`
(`par2_total`, `solved`, `excluded`). -/
structure Par2Acc where
  total : ℚ
  solved : ℕ
  excluded : List String
deriving Repr

/-- One iteration of the loop of `_compute_par2_and_solved`
(tools/parse_results.py lines 221-238). -/
def par2Step (timeoutMs : ℚ) (acc : Par2Acc) (r : RunRecord) : Par2Acc :=
  if isExcludedOutcome r.result then
    { acc with excluded := acc.excluded ++ [r.testCase] }
  else if r.result = Outcome.TIMEOUT then
    { acc with total := acc.total + 2 * timeoutMs }
  else if (r.result = Outcome.SAT ∨ r.result = Outcome.UNSAT) ∧ r.simTimeMs ≤ timeoutMs then
    { acc with total := acc.total + r.simTimeMs, solved := acc.solved + 1 }
  else
    { acc with total := acc.total + 2 * timeoutMs }

/-- `_compute_par2_and_solved(res_list)` of tools/parse_results.py
(lines 207-242): returns `(par2_seconds, solved_count, excluded_tests)`.
`timeout_ms = timeout_seconds * 1000` is taken here directly as the
`timeoutMs` argument. -/
def computePar2AndSolved (timeoutMs : ℚ) (resList : List RunRecord) :
    ℚ × ℕ × List String :=
  if resList = [] then (0, 0, [])
  else
    let acc := resList.foldl (par2Step timeoutMs) ⟨0, 0, []⟩
    let validCount : ℕ := resList.length - acc.excluded.length
    (if 0 < validCount then acc.total / validCount / 1000 else 0,
     acc.solved, acc.excluded)

/-- The spec's per-record PAR-2 contribution: the elapsed time when the
outcome is SAT or UNSAT within the timeout, `2 × timeout` otherwise
(spec §4.6).  The source realises it twice, in `_compute_par2_and_solved`
and in the best-of-seeds loop (lines 502-512), with an explicit
`TIMEOUT` branch that lands in the same `2 × timeout` value. -/
def specPar2Contribution (timeoutMs : ℚ) (r : RunRecord) : ℚ :=
  if (r.result = Outcome.SAT ∨ r.result = Outcome.UNSAT) ∧ r.simTimeMs ≤ timeoutMs then
    r.simTimeMs
  else 2 * timeoutMs

/-- A record counted as solved by the scorer. -/
def isSolvedWithin (timeoutMs : ℚ) (r : RunRecord) : Bool :=
  ((r.result = Outcome.SAT ∨ r.result = Outcome.UNSAT) ∧ r.simTimeMs ≤ timeoutMs : Prop)

/-- Unfolding of the scorer's loop: fold state in terms of the
non-excluded records. -/
theorem par2_foldl_spec (timeoutMs : ℚ) (rs : List RunRecord) (acc : Par2Acc) :
    (rs.foldl (par2Step timeoutMs) acc).total
        = acc.total + ((rs.filter (fun r => ! isExcludedOutcome r.result)).map
            (specPar2Contribution timeoutMs)).sum ∧
    (rs.foldl (par2Step timeoutMs) acc).solved
        = acc.solved + ((rs.filter (fun r => ! isExcludedOutcome r.result)).filter
            (isSolvedWithin timeoutMs)).length ∧
    (rs.foldl (par2Step timeoutMs) acc).excluded
        = acc.excluded ++ (rs.filter (fun r => isExcludedOutcome r.result)).map
            RunRecord.testCase := by
  induction rs generalizing acc with
  | nil => simp
  | cons r rs ih =>
    rcases ih (par2Step timeoutMs acc r) with ⟨h1, h2, h3⟩
    by_cases hexc : isExcludedOutcome r.result
    · refine ⟨?_, ?_, ?_⟩
      · rw [List.foldl_cons, h1]
        simp [par2Step, hexc]
      · rw [List.foldl_cons, h2]
        simp [par2Step, hexc]
      · rw [List.foldl_cons, h3]
        simp [par2Step, hexc]
    · have hstep : (par2Step timeoutMs acc r).total
          = acc.total + specPar2Contribution timeoutMs r ∧
        (par2Step timeoutMs acc r).solved
          = acc.solved + (if isSolvedWithin timeoutMs r then 1 else 0) ∧
        (par2Step timeoutMs acc r).excluded = acc.excluded := by
        unfold par2Step specPar2Contribution isSolvedWithin
        simp only [hexc, if_false, Bool.false_eq_true]
        by_cases hto : r.result = Outcome.TIMEOUT
        · have : ¬ ((r.result = Outcome.SAT ∨ r.result = Outcome.UNSAT)
              ∧ r.simTimeMs ≤ timeoutMs) := by
            rintro ⟨h | h, -⟩ <;> rw [hto] at h <;> exact Outcome.noConfusion h
          simp [hto, this]
        · by_cases hsolve : (r.result = Outcome.SAT ∨ r.result = Outcome.UNSAT)
              ∧ r.simTimeMs ≤ timeoutMs
          · simp [hto, hsolve]
          · simp [hto, hsolve]
      refine ⟨?_, ?_, ?_⟩
      · rw [List.foldl_cons, h1, hstep.1]
        simp [hexc, add_assoc]
      · rw [List.foldl_cons, h2, hstep.2.1]
        by_cases hs : isSolvedWithin timeoutMs r <;>
          simp [hexc, hs, add_assoc, List.filter_cons, add_comm]
      · rw [List.foldl_cons, h3, hstep.2.2]
        simp [hexc]

/-- C1: For every list of run records and every timeout, the average-mode
PAR-2 scorer excludes ERROR/UNKNOWN records from numerator and
denominator; each remaining record contributes `elapsed_time_ms` and
increments `solved_count` iff its outcome is SAT or UNSAT with
`elapsed_time_ms ≤ timeout_ms` (the boundary `=` counts as solved, being
part of `≤`), otherwise contributes `2 * timeout_ms`; and `par2_seconds`
is the contribution sum over the count of non-excluded records, divided
by 1000 (the division is `0` when the count is `0`, matching the source's
guarded division). -/
theorem C1_par2_scorer (timeoutMs : ℚ) (rs : List RunRecord) :
    (computePar2AndSolved timeoutMs rs).1
      = ((rs.filter (fun r => ! isExcludedOutcome r.result)).map
          (specPar2Contribution timeoutMs)).sum
        / (rs.filter (fun r => ! isExcludedOutcome r.result)).length / 1000 ∧
    (computePar2AndSolved timeoutMs rs).2.1
      = ((rs.filter (fun r => ! isExcludedOutcome r.result)).filter
          (isSolvedWithin timeoutMs)).length ∧
    (computePar2AndSolved timeoutMs rs).2.2
      = (rs.filter (fun r => isExcludedOutcome r.result)).map RunRecord.testCase := by
  unfold computePar2AndSolved
  by_cases hnil : rs = []
  · subst hnil; simp
  · simp only [hnil, if_false]
    rcases par2_foldl_spec timeoutMs rs ⟨0, 0, []⟩ with ⟨h1, h2, h3⟩
    have hlen : rs.length - ((rs.filter (fun r => isExcludedOutcome r.result)).map
        RunRecord.testCase).length
        = (rs.filter (fun r => ! isExcludedOutcome r.result)).length := by
      rw [List.length_map, rs.length_eq_length_filter_add (fun r => isExcludedOutcome r.result)]
      simp
    refine ⟨?_, by simpa using h2, by simpa using h3⟩
    rw [h3] at *
    simp only [List.nil_append] at *
    rw [h1, hlen]
    by_cases hpos : 0 < (rs.filter (fun r => ! isExcludedOutcome r.result)).length
    · simp [hpos]
    · have hz : (rs.filter (fun r => ! isExcludedOutcome r.result)).length = 0 :=
        Nat.eq_zero_of_not_pos hpos
      have hfe : rs.filter (fun r => ! isExcludedOutcome r.result) = [] :=
        List.length_eq_zero.mp hz
      simp [hpos, hfe]

/-- The single-run timeout classifier of tools/parse_results.py
(lines 622-635): a SAT/UNSAT record over the timeout is relabelled
TIMEOUT, and any TIMEOUT record gets `sim_time_ms` pinned to the PAR-2
penalty `2 * timeout_ms`. -/
def classifyTimeout (timeoutMs : ℚ) (r : RunRecord) : RunRecord :=
  let r1 :=
    if (r.result = Outcome.SAT ∨ r.result = Outcome.UNSAT) ∧ r.simTimeMs > timeoutMs then
      { r with result := Outcome.TIMEOUT }
    else r
  if r1.result = Outcome.TIMEOUT then { r1 with simTimeMs := 2 * timeoutMs } else r1

/-- C3: the timeout classifier (i) rewrites a SAT/UNSAT record whose
elapsed time exceeds the timeout to TIMEOUT with elapsed time pinned to
`2 * timeout_ms`, (ii) leaves an ERROR or UNKNOWN record unchanged in
every field, and (iii) is idempotent: re-applying it with the same
timeout is a no-op. -/
theorem C3_timeout_classifier (timeoutMs : ℚ) :
    (∀ r : RunRecord, r.result = Outcome.SAT ∨ r.result = Outcome.UNSAT →
      r.simTimeMs > timeoutMs →
      classifyTimeout timeoutMs r
        = { r with result := Outcome.TIMEOUT, simTimeMs := 2 * timeoutMs }) ∧
    (∀ r : RunRecord, r.result = Outcome.ERROR ∨ r.result = Outcome.UNKNOWN →
      classifyTimeout timeoutMs r = r) ∧
    (∀ r : RunRecord,
      classifyTimeout timeoutMs (classifyTimeout timeoutMs r)
        = classifyTimeout timeoutMs r) := by
  refine ⟨?_, ?_, ?_⟩
  · intro r hsu hgt
    simp [classifyTimeout, hsu, hgt]
  · intro r herr
    have h1 : ¬ ((r.result = Outcome.SAT ∨ r.result = Outcome.UNSAT)
        ∧ r.simTimeMs > timeoutMs) := by
      rintro ⟨h | h, -⟩ <;> rcases herr with he | he <;> rw [he] at h <;>
        exact Outcome.noConfusion h
    have h2 : ¬ r.result = Outcome.TIMEOUT := by
      rcases herr with he | he <;> rw [he] <;> exact fun h => Outcome.noConfusion h
    simp [classifyTimeout, h1, h2]
  · intro r
    unfold classifyTimeout
    by_cases hover : (r.result = Outcome.SAT ∨ r.result = Outcome.UNSAT)
        ∧ r.simTimeMs > timeoutMs
    · simp [hover]
    · by_cases hto : r.result = Outcome.TIMEOUT
      · simp [hover, hto]
      · have hover2 : ¬ ((r.result = Outcome.SAT ∨ r.result = Outcome.UNSAT)
            ∧ r.simTimeMs > timeoutMs) := hover
        simp [hover, hto]

/-- Witness for C3 at concrete records: a SAT record at 1200 ms against a
1000 ms timeout is rewritten to TIMEOUT at 2000 ms, an ERROR record
passes through unchanged, and re-classification of the rewritten record
is a no-op. -/
theorem C3_timeout_classifier_witness :
    classifyTimeout 1000 ⟨"y", Outcome.SAT, 1200, []⟩
      = ⟨"y", Outcome.TIMEOUT, 2000, []⟩ ∧
    classifyTimeout 1000 ⟨"e", Outcome.ERROR, 1200, []⟩
      = ⟨"e", Outcome.ERROR, 1200, []⟩ ∧
    classifyTimeout 1000 (classifyTimeout 1000 ⟨"y", Outcome.SAT, 1200, []⟩)
      = classifyTimeout 1000 ⟨"y", Outcome.SAT, 1200, []⟩ := by
  refine ⟨?_, ?_, ?_⟩
  · have h := (C3_timeout_classifier 1000).1 ⟨"y", Outcome.SAT, 1200, []⟩
      (Or.inl rfl) (by norm_num)
    rw [h]
    norm_num
  · exact (C3_timeout_classifier 1000).2.1 ⟨"e", Outcome.ERROR, 1200, []⟩ (Or.inl rfl)
  · exact (C3_timeout_classifier 1000).2.2 ⟨"y", Outcome.SAT, 1200, []⟩

/-- A combined outcome label: either a bare outcome ("SAT") or an outcome
with a dissent-count suffix ("SAT 2").  The Python code builds strings
`f'{label} {k}'` and later recovers `primary_label` via `split()[0]` and
suffix presence via `' ' in result_str`; this structured type carries
exactly those two pieces of information. -/
inductive CombinedLabel where
  | pure : Outcome → CombinedLabel
  | suffixed : Outcome → ℕ → CombinedLabel
deriving DecidableEq, Repr

/-- `primary_label = result_str.split()[0]` of tools/parse_results.py. -/
def CombinedLabel.primary : CombinedLabel → Outcome
  | .pure o => o
  | .suffixed o _ => o

/-- `' ' in result_str`: the label carries a dissent-count suffix. -/
def CombinedLabel.hasSuffix : CombinedLabel → Bool
  | .pure _ => false
  | .suffixed _ _ => true

/-- The combined-outcome computation of the multi-seed aggregation
(tools/parse_results.py lines 356-389), over the nonempty list of
per-seed labels `l :: ls` (`seed_labels`).  `unique_labels =
set(seed_labels)` is modelled by `dedup`. -/
def combineLabels (l : Outcome) (ls : List Outcome) : CombinedLabel :=
  let labels := l :: ls
  let uniqueLabels := labels.dedup
  if uniqueLabels.length = 1 then .pure l
  else if Outcome.SAT ∈ uniqueLabels ∧ Outcome.UNSAT ∈ uniqueLabels then
    .pure Outcome.ERROR
  else if Outcome.SAT ∈ uniqueLabels then
    let nonSatCount := labels.countP (fun x => decide (x ≠ Outcome.SAT))
    if 0 < nonSatCount then .suffixed Outcome.SAT nonSatCount else .pure Outcome.SAT
  else if Outcome.UNSAT ∈ uniqueLabels then
    let nonUnsatCount := labels.countP (fun x => decide (x ≠ Outcome.UNSAT))
    if 0 < nonUnsatCount then .suffixed Outcome.UNSAT nonUnsatCount else .pure Outcome.UNSAT
  else if Outcome.ERROR ∈ uniqueLabels then
    let errorCount := labels.countP (fun x => decide (x = Outcome.ERROR))
    if errorCount < labels.length then .suffixed Outcome.ERROR (labels.length - errorCount)
    else .pure Outcome.ERROR
  else if Outcome.TIMEOUT ∈ uniqueLabels then
    let timeoutCount := labels.countP (fun x => decide (x = Outcome.TIMEOUT))
    if timeoutCount < labels.length then .suffixed Outcome.TIMEOUT (labels.length - timeoutCount)
    else .pure Outcome.TIMEOUT
  else
    let unknownCount := labels.countP (fun x => decide (x = Outcome.UNKNOWN))
    if unknownCount < labels.length then .suffixed Outcome.UNKNOWN (labels.length - unknownCount)
    else .pure Outcome.UNKNOWN

/-- `len(set(seed_labels)) == 1` is unanimity of the labels. -/
theorem dedup_length_one_iff {α : Type} [DecidableEq α] (l : α) (ls : List α) :
    (l :: ls).dedup.length = 1 ↔ ∀ x ∈ l :: ls, x = l := by
  constructor
  · intro h x hx
    rcases List.length_eq_one.mp h with ⟨a, ha⟩
    have hxa : x = a := by
      have := List.mem_dedup.mpr hx
      rw [ha] at this
      simpa using this
    have hla : l = a := by
      have := List.mem_dedup.mpr (List.mem_cons_self l ls)
      rw [ha] at this
      simpa using this
    rw [hxa, hla]
  · intro h
    have hd : (l :: ls).dedup = [l] := by
      have hnd := List.nodup_dedup (l :: ls)
      have hsub : ∀ x ∈ (l :: ls).dedup, x = l := fun x hx =>
        h x (List.mem_dedup.mp hx)
      have hmem : l ∈ (l :: ls).dedup := List.mem_dedup.mpr (List.mem_cons_self l ls)
      match hdd : (l :: ls).dedup, hnd, hsub, hmem with
      | [], _, _, hm => exact absurd hm (List.not_mem_nil l)
      | [a], _, hs, _ => rw [hs a (List.mem_cons_self a [])]
      | a :: b :: t, hn, hs, _ =>
        have ha : a = l := hs a (by simp)
        have hb : b = l := hs b (by simp)
        have : a ≠ b := by
          have := List.nodup_cons.mp hn
          intro hab
          exact this.1 (hab ▸ List.mem_cons_self b t)
        exact absurd (ha.trans hb.symm) this
    rw [hd]
    rfl

/-- C2: multi-seed outcome reconciliation: (i) identical per-seed labels
yield exactly that label with no dissent suffix; (ii) SAT and UNSAT both
present yield "ERROR"; (iii)/(iv) non-unanimous labels where SAT (resp.
UNSAT) appears and UNSAT (resp. SAT) does not yield "SAT k" (resp.
"UNSAT k"), k being the count of seeds whose label differs. -/
theorem C2_reconciler_outcomes (l : Outcome) (ls : List Outcome) :
    ((∀ x ∈ l :: ls, x = l) → combineLabels l ls = .pure l) ∧
    (Outcome.SAT ∈ l :: ls → Outcome.UNSAT ∈ l :: ls →
        combineLabels l ls = .pure Outcome.ERROR) ∧
    (¬ (∀ x ∈ l :: ls, x = l) → Outcome.SAT ∈ l :: ls → Outcome.UNSAT ∉ l :: ls →
        combineLabels l ls
          = .suffixed Outcome.SAT ((l :: ls).countP (fun x => decide (x ≠ Outcome.SAT)))) ∧
    (¬ (∀ x ∈ l :: ls, x = l) → Outcome.UNSAT ∈ l :: ls → Outcome.SAT ∉ l :: ls →
        combineLabels l ls
          = .suffixed Outcome.UNSAT ((l :: ls).countP (fun x => decide (x ≠ Outcome.UNSAT)))) := by
  refine ⟨?_, ?_, ?_, ?_⟩
  · intro h
    have h1 : (l :: ls).dedup.length = 1 := (dedup_length_one_iff l ls).mpr h
    simp [combineLabels, h1]
  · intro hS hU
    have hne : ¬ (l :: ls).dedup.length = 1 := by
      intro h1
      have hall := (dedup_length_one_iff l ls).mp h1
      have h2 := hall _ hS
      have h3 := hall _ hU
      rw [← h3] at h2
      exact Outcome.noConfusion h2
    have hs' : Outcome.SAT ∈ (l :: ls).dedup := List.mem_dedup.mpr hS
    have hu' : Outcome.UNSAT ∈ (l :: ls).dedup := List.mem_dedup.mpr hU
    simp [combineLabels, hne, hs', hu']
  · intro hnu hS hU
    have hne : ¬ (l :: ls).dedup.length = 1 := fun h1 =>
      hnu ((dedup_length_one_iff l ls).mp h1)
    have hs' : Outcome.SAT ∈ (l :: ls).dedup := List.mem_dedup.mpr hS
    have hu' : Outcome.UNSAT ∉ (l :: ls).dedup := fun h => hU (List.mem_dedup.mp h)
    have hpos : 0 < (l :: ls).countP (fun x => decide (x ≠ Outcome.SAT)) := by
      rw [List.countP_pos_iff]
      by_cases hl : l = Outcome.SAT
      · push_neg at hnu
        rcases hnu with ⟨x, hx, hxl⟩
        exact ⟨x, hx, by simpa using fun h => hxl (h.trans hl.symm)⟩
      · exact ⟨l, List.mem_cons_self l ls, by simpa using hl⟩
    simp [combineLabels, hne, hs', hu', hpos]
    intro hl
    push_neg at hnu
    rcases hnu with ⟨x, hx, hxl⟩
    rcases List.mem_cons.mp hx with hxh | hxt
    · exact absurd hxh hxl
    · exact ⟨x, hxt, fun h => hxl (by rw [h, hl])⟩
  · intro hnu hU hS
    have hne : ¬ (l :: ls).dedup.length = 1 := fun h1 =>
      hnu ((dedup_length_one_iff l ls).mp h1)
    have hu' : Outcome.UNSAT ∈ (l :: ls).dedup := List.mem_dedup.mpr hU
    have hs' : Outcome.SAT ∉ (l :: ls).dedup := fun h => hS (List.mem_dedup.mp h)
    have hpos : 0 < (l :: ls).countP (fun x => decide (x ≠ Outcome.UNSAT)) := by
      rw [List.countP_pos_iff]
      by_cases hl : l = Outcome.UNSAT
      · push_neg at hnu
        rcases hnu with ⟨x, hx, hxl⟩
        exact ⟨x, hx, by simpa using fun h => hxl (h.trans hl.symm)⟩
      · exact ⟨l, List.mem_cons_self l ls, by simpa using hl⟩
    simp [combineLabels, hne, hs', hu', hpos]
    intro hl
    push_neg at hnu
    rcases hnu with ⟨x, hx, hxl⟩
    rcases List.mem_cons.mp hx with hxh | hxt
    · exact absurd hxh hxl
    · exact ⟨x, hxt, fun h => hxl (by rw [h, hl])⟩

/-- Witness for C2 at concrete seed-label lists: [SAT,SAT] → "SAT";
[SAT,UNSAT] → "ERROR"; [SAT,TIMEOUT] → "SAT 1"; [UNSAT,ERROR,UNSAT] →
"UNSAT 1". -/
theorem C2_reconciler_outcomes_witness :
    combineLabels Outcome.SAT [Outcome.SAT] = .pure Outcome.SAT ∧
    combineLabels Outcome.SAT [Outcome.UNSAT] = .pure Outcome.ERROR ∧
    combineLabels Outcome.SAT [Outcome.TIMEOUT] = .suffixed Outcome.SAT 1 ∧
    combineLabels Outcome.UNSAT [Outcome.ERROR, Outcome.UNSAT]
      = .suffixed Outcome.UNSAT 1 := by
  refine ⟨?_, ?_, ?_, ?_⟩
  · exact (C2_reconciler_outcomes Outcome.SAT [Outcome.SAT]).1 (by decide)
  · exact (C2_reconciler_outcomes Outcome.SAT [Outcome.UNSAT]).2.1 (by decide) (by decide)
  · have h := (C2_reconciler_outcomes Outcome.SAT [Outcome.TIMEOUT]).2.2.1
      (by decide) (by decide) (by decide)
    rw [h]; rfl
  · have h := (C2_reconciler_outcomes Outcome.UNSAT [Outcome.ERROR, Outcome.UNSAT]).2.2.2
      (by decide) (by decide) (by decide)
    rw [h]; rfl

/-- The two forms of counting dissenters coincide. -/
theorem countP_ne_eq_countP_not (e : Outcome) (labels : List Outcome) :
    labels.countP (fun x => decide (x ≠ e)) = labels.countP (fun x => !decide (x = e)) := by
  have hf : (fun x : Outcome => decide (x ≠ e)) = (fun x => !decide (x = e)) := by
    funext x
    by_cases h : x = e <;> simp [h]
  rw [hf]

/-- Counting matches plus non-matches of a label gives the length. -/
theorem countP_eq_add_countP_ne_length (e : Outcome) (labels : List Outcome) :
    labels.countP (fun x => decide (x = e)) + labels.countP (fun x => decide (x ≠ e))
      = labels.length := by
  rw [countP_ne_eq_countP_not]
  induction labels with
  | nil => rfl
  | cons a t ih =>
    by_cases h : a = e <;> simp [List.countP_cons, h] <;> omega

/-- C5 counterexample: for seed labels `[TIMEOUT, TIMEOUT, ERROR]` the
code produces the combined outcome "ERROR 2" although TIMEOUT (count 2)
is strictly more frequent than ERROR (count 1): the primary label is NOT
the most frequent label among {TIMEOUT, ERROR, UNKNOWN}, refuting the
claim; the selection is by the fixed priority ERROR > TIMEOUT > UNKNOWN
of the source (comment "Priority: ERROR > TIMEOUT > UNKNOWN"). -/
theorem C5_most_frequent_counterexample :
    combineLabels Outcome.TIMEOUT [Outcome.TIMEOUT, Outcome.ERROR]
      = .suffixed Outcome.ERROR 2 ∧
    ([Outcome.TIMEOUT, Outcome.TIMEOUT, Outcome.ERROR].countP
        (fun x => decide (x = Outcome.ERROR))
      < [Outcome.TIMEOUT, Outcome.TIMEOUT, Outcome.ERROR].countP
        (fun x => decide (x = Outcome.TIMEOUT))) ∧
    (combineLabels Outcome.TIMEOUT [Outcome.TIMEOUT, Outcome.ERROR]).primary
      ≠ Outcome.TIMEOUT := by
  refine ⟨by decide, by decide, by decide⟩

/-- C5 amended: when no seed label is SAT and none is UNSAT, unanimous
labels yield the bare label; otherwise the combined outcome is chosen by
the fixed priority ERROR > TIMEOUT > UNKNOWN among the labels present
(not by frequency), and always carries the dissent-count suffix (count
of seeds not bearing the chosen label), which is positive since the
labels are not unanimous. -/
theorem C5_priority_pick_amended (l : Outcome) (ls : List Outcome)
    (hS : Outcome.SAT ∉ l :: ls) (hU : Outcome.UNSAT ∉ l :: ls) :
    ((∀ x ∈ l :: ls, x = l) → combineLabels l ls = .pure l) ∧
    (¬ (∀ x ∈ l :: ls, x = l) →
      combineLabels l ls =
        (if Outcome.ERROR ∈ l :: ls then
          CombinedLabel.suffixed Outcome.ERROR
            ((l :: ls).countP (fun x => decide (x ≠ Outcome.ERROR)))
        else
          CombinedLabel.suffixed Outcome.TIMEOUT
            ((l :: ls).countP (fun x => decide (x ≠ Outcome.TIMEOUT))))) := by
  constructor
  · intro h
    have h1 : (l :: ls).dedup.length = 1 := (dedup_length_one_iff l ls).mpr h
    simp [combineLabels, h1]
  · intro hnu
    have hne : ¬ (l :: ls).dedup.length = 1 := fun h1 =>
      hnu ((dedup_length_one_iff l ls).mp h1)
    have hs' : Outcome.SAT ∉ (l :: ls).dedup := fun h => hS (List.mem_dedup.mp h)
    have hu' : Outcome.UNSAT ∉ (l :: ls).dedup := fun h => hU (List.mem_dedup.mp h)
    have hsub : ∀ e : Outcome, e ∈ l :: ls →
        (l :: ls).countP (fun x => decide (x = e)) < (l :: ls).length →
        (l :: ls).length - (l :: ls).countP (fun x => decide (x = e))
          = (l :: ls).countP (fun x => decide (x ≠ e)) := by
      intro e _ _
      have := countP_eq_add_countP_ne_length e (l :: ls)
      omega
    have hcnt_lt : ∀ e : Outcome, e ∈ l :: ls →
        (l :: ls).countP (fun x => decide (x = e)) < (l :: ls).length := by
      intro e _
      have hex : ∃ x ∈ l :: ls, x ≠ e := by
        by_cases hl : l = e
        · push_neg at hnu
          rcases hnu with ⟨x, hx, hxl⟩
          exact ⟨x, hx, fun h => hxl (h.trans hl.symm)⟩
        · exact ⟨l, List.mem_cons_self l ls, hl⟩
      rcases hex with ⟨x, hx, hxe⟩
      have hpos : 0 < (l :: ls).countP (fun x => decide (x ≠ e)) :=
        List.countP_pos_iff.mpr ⟨x, hx, by simpa using hxe⟩
      have hadd := countP_eq_add_countP_ne_length e (l :: ls)
      omega
    by_cases hE : Outcome.ERROR ∈ l :: ls
    · have he' : Outcome.ERROR ∈ (l :: ls).dedup := List.mem_dedup.mpr hE
      have hlt := hcnt_lt Outcome.ERROR hE
      have hsubst := hsub Outcome.ERROR hE hlt
      rw [if_pos hE]
      simp only [combineLabels]
      rw [if_neg hne, if_neg (fun h => hs' h.1), if_neg hs', if_neg hu', if_pos he',
        if_pos hlt, hsubst]
    · have he' : Outcome.ERROR ∉ (l :: ls).dedup := fun h => hE (List.mem_dedup.mp h)
      have hT : Outcome.TIMEOUT ∈ l :: ls := by
        push_neg at hnu
        rcases hnu with ⟨x, hx, hxl⟩
        have hl : l ∈ l :: ls := List.mem_cons_self l ls
        have hmem : ∀ y : Outcome, y ∈ l :: ls →
            y = Outcome.TIMEOUT ∨ y = Outcome.UNKNOWN := by
          intro y hy
          cases y with
          | SAT => exact absurd hy hS
          | UNSAT => exact absurd hy hU
          | ERROR => exact absurd hy hE
          | TIMEOUT => exact Or.inl rfl
          | UNKNOWN => exact Or.inr rfl
        rcases hmem l hl with h1 | h1
        · rw [← h1]; exact hl
        · rcases hmem x hx with h2 | h2
          · rw [← h2]; exact hx
          · exact absurd (h2.trans h1.symm) hxl
      have ht' : Outcome.TIMEOUT ∈ (l :: ls).dedup := List.mem_dedup.mpr hT
      have hlt := hcnt_lt Outcome.TIMEOUT hT
      have hsubst := hsub Outcome.TIMEOUT hT hlt
      rw [if_neg hE]
      simp only [combineLabels]
      rw [if_neg hne, if_neg (fun h => hs' h.1), if_neg hs', if_neg hu', if_neg he',
        if_pos ht', if_pos hlt, hsubst]

/-- Witness for C5 amended: unanimous `[UNKNOWN, UNKNOWN]` stays bare
"UNKNOWN"; mixed `[TIMEOUT, TIMEOUT, ERROR]` picks ERROR by priority with
dissent count 2. -/
theorem C5_priority_pick_amended_witness :
    combineLabels Outcome.UNKNOWN [Outcome.UNKNOWN] = .pure Outcome.UNKNOWN ∧
    combineLabels Outcome.TIMEOUT [Outcome.TIMEOUT, Outcome.ERROR]
      = (if Outcome.ERROR ∈ [Outcome.TIMEOUT, Outcome.TIMEOUT, Outcome.ERROR] then
          CombinedLabel.suffixed Outcome.ERROR
            ([Outcome.TIMEOUT, Outcome.TIMEOUT, Outcome.ERROR].countP
              (fun x => decide (x ≠ Outcome.ERROR)))
        else
          CombinedLabel.suffixed Outcome.TIMEOUT
            ([Outcome.TIMEOUT, Outcome.TIMEOUT, Outcome.ERROR].countP
              (fun x => decide (x ≠ Outcome.TIMEOUT)))) := by
  constructor
  · exact (C5_priority_pick_amended Outcome.UNKNOWN [Outcome.UNKNOWN]
      (by decide) (by decide)).1 (by decide)
  · exact (C5_priority_pick_amended Outcome.TIMEOUT [Outcome.TIMEOUT, Outcome.ERROR]
      (by decide) (by decide)).2 (by decide)

/-- `numeric_fields_excluding_time` of tools/parse_results.py
(lines 332-346): the statistic keys averaged across seeds. -/
def numericFieldsExcludingTime : List String := [
  "variables", "clauses", "total_memory_bytes",
  "decisions", "propagations", "conflicts", "learned", "removed",
  "db_reductions", "minimized", "restarts",
  "l1_total_requests", "l1_total_miss_rate",
  "l1_heap_total", "l1_heap_miss_rate",
  "l1_variables_total", "l1_variables_miss_rate",
  "l1_watches_total", "l1_watches_miss_rate",
  "l1_clauses_total", "l1_clauses_miss_rate",
  "l1_varactivity_total", "l1_varactivity_miss_rate",
  "propagate_cycles", "analyze_cycles", "minimize_cycles", "backtrack_cycles",
  "decision_cycles", "reduce_db_cycles", "heap_insert_cycles", "heap_bump_cycles",
  "restart_cycles", "total_counted_cycles",
  "prefetches_issued", "prefetches_used", "prefetches_unused", "prefetch_accuracy",
  "l1_prefetch_requests", "l1_prefetch_drops"]

/-- The numeric payload of an aggregate record: the averaged statistic
fields and the PAR-2-convention averaged `sim_time_ms`
(`effective_time_ms` of the spec). -/
structure AggFields where
  stats : List (String × ℚ)
  simTimeMs : ℚ
deriving DecidableEq, Repr

/-- One aggregated per-instance row of the multi-seed path.  `fields =
none` models the `agg.clear()` path of tools/parse_results.py lines
400-408 that keeps only `test_case` and `result`. -/
structure AggregateRecord where
  testCase : String
  result : CombinedLabel
  fields : Option AggFields
deriving DecidableEq, Repr

/-- `result_str == 'TIMEOUT' or result_str.startswith('TIMEOUT ')`
(line 425). -/
def isTimeoutPrimaryLabel : CombinedLabel → Bool
  | .pure Outcome.TIMEOUT => true
  | .suffixed Outcome.TIMEOUT _ => true
  | _ => false

/-- `is_abnormal or is_mixed_non_timeout` of lines 396-398: primary label
ERROR/UNKNOWN, or a dissent suffix with a non-TIMEOUT primary. -/
def clearCondition (c : CombinedLabel) : Bool :=
  (c.primary = Outcome.ERROR ∨ c.primary = Outcome.UNKNOWN) ∨
    (c.hasSuffix ∧ c.primary ≠ Outcome.TIMEOUT)

/-- One seed's contribution to the `time_vals` list of lines 441-460:
`none` for ERROR/UNKNOWN seeds (skipped), the PAR-2 penalty for TIMEOUT
seeds, the observed time for SAT/UNSAT within the timeout, and the
penalty otherwise. -/
def par2TimeValue (timeoutMs : ℚ) (e : RunRecord) : Option ℚ :=
  if isExcludedOutcome e.result then none
  else if e.result = Outcome.TIMEOUT then some (2 * timeoutMs)
  else if (e.result = Outcome.SAT ∨ e.result = Outcome.UNSAT) ∧ e.simTimeMs ≤ timeoutMs then
    some e.simTimeMs
  else some (2 * timeoutMs)

/-- The per-`test_case` aggregation of the multi-seed path of
tools/parse_results.py (lines 347-464) over the seed entries of one
instance: combined outcome label, the field-clearing rule, per-key
statistic averaging over the contributing seeds, and the
PAR-2-convention `sim_time_ms` average.  The empty-entry case is
unreachable in the source (`if not entries: continue`). -/
def aggregateCase (timeoutMs : ℚ) (entries : List RunRecord) : AggregateRecord :=
  match entries with
  | [] => ⟨"", .pure Outcome.UNKNOWN, none⟩
  | e :: es =>
    let label := combineLabels e.result (es.map RunRecord.result)
    if clearCondition label then ⟨e.testCase, label, none⟩
    else
      let finished := (e :: es).filter (fun r =>
        decide ((r.result = Outcome.SAT ∨ r.result = Outcome.UNSAT)
          ∧ r.simTimeMs ≤ timeoutMs))
      let entriesForAvg := if isTimeoutPrimaryLabel label then e :: es else finished
      let stats := numericFieldsExcludingTime.map (fun k =>
        (k, avgOf (entriesForAvg.filterMap (fun r => r.statOf k))))
      let timeVals := (e :: es).filterMap (par2TimeValue timeoutMs)
      ⟨e.testCase, label, some ⟨stats, avgOf timeVals⟩⟩

/-- The aggregate's combined outcome is `combineLabels` of the per-seed
labels, in both the cleared and the retained branch. -/
theorem aggregateCase_result (timeoutMs : ℚ) (e : RunRecord) (es : List RunRecord) :
    (aggregateCase timeoutMs (e :: es)).result
      = combineLabels e.result (es.map RunRecord.result) := by
  unfold aggregateCase
  by_cases h : clearCondition (combineLabels e.result (es.map RunRecord.result)) <;>
    simp [h]

/-- C10: a multi-seed aggregate whose combined outcome has primary label
ERROR or UNKNOWN, or a dissent-count suffix with a primary label other
than TIMEOUT, is emitted with every numeric and statistic field erased —
only the instance identifier and the combined outcome remain; an
aggregate whose primary label is TIMEOUT (suffixed or not) keeps its
averaged numeric payload. -/
theorem C10_field_clearing (timeoutMs : ℚ) (e : RunRecord) (es : List RunRecord) :
    (((aggregateCase timeoutMs (e :: es)).result.primary = Outcome.ERROR ∨
      (aggregateCase timeoutMs (e :: es)).result.primary = Outcome.UNKNOWN ∨
      ((aggregateCase timeoutMs (e :: es)).result.hasSuffix = true ∧
       (aggregateCase timeoutMs (e :: es)).result.primary ≠ Outcome.TIMEOUT)) →
      aggregateCase timeoutMs (e :: es)
        = ⟨e.testCase, (aggregateCase timeoutMs (e :: es)).result, none⟩) ∧
    ((aggregateCase timeoutMs (e :: es)).result.primary = Outcome.TIMEOUT →
      ∃ f, (aggregateCase timeoutMs (e :: es)).fields = some f) := by
  rw [aggregateCase_result]
  constructor
  · intro h
    have hclear : clearCondition (combineLabels e.result (es.map RunRecord.result))
        = true := by
      unfold clearCondition
      rcases h with h | h | ⟨h1, h2⟩
      · simp [h]
      · simp [h]
      · simp [h1, h2]
    simp [aggregateCase, hclear]
  · intro h
    have hclear : clearCondition (combineLabels e.result (es.map RunRecord.result))
        = false := by
      unfold clearCondition
      cases hc : combineLabels e.result (es.map RunRecord.result) with
      | pure o =>
        rw [hc] at h
        simp [CombinedLabel.primary] at h
        simp [CombinedLabel.primary, CombinedLabel.hasSuffix, h]
      | suffixed o k =>
        rw [hc] at h
        simp [CombinedLabel.primary] at h
        simp [CombinedLabel.primary, CombinedLabel.hasSuffix, h]
    simp [aggregateCase, hclear]

/-- Witness for C10: the aggregate of two contradicting seeds
(SAT, UNSAT → "ERROR") is emitted with `fields = none`, and the
aggregate of unanimous TIMEOUT seeds keeps its numeric payload. -/
theorem C10_field_clearing_witness :
    aggregateCase 1000 [⟨"z", Outcome.SAT, 10, []⟩, ⟨"z", Outcome.UNSAT, 10, []⟩]
      = ⟨"z", (aggregateCase 1000
          [⟨"z", Outcome.SAT, 10, []⟩, ⟨"z", Outcome.UNSAT, 10, []⟩]).result, none⟩ ∧
    ∃ f, (aggregateCase 1000 [⟨"t", Outcome.TIMEOUT, 0, []⟩]).fields = some f := by
  constructor
  · exact (C10_field_clearing 1000 ⟨"z", Outcome.SAT, 10, []⟩
      [⟨"z", Outcome.UNSAT, 10, []⟩]).1 (Or.inl (by decide))
  · exact (C10_field_clearing 1000 ⟨"t", Outcome.TIMEOUT, 0, []⟩ []).2 (by decide)

/-- A non-ERROR/UNKNOWN seed's `time_vals` entry is its spec PAR-2
contribution. -/
theorem par2TimeValue_eq_some (timeoutMs : ℚ) (r : RunRecord)
    (hexc : ¬ isExcludedOutcome r.result) :
    par2TimeValue timeoutMs r = some (specPar2Contribution timeoutMs r) := by
  unfold par2TimeValue specPar2Contribution
  rw [if_neg (by simpa using hexc)]
  by_cases hto : r.result = Outcome.TIMEOUT
  · have hns : ¬ ((r.result = Outcome.SAT ∨ r.result = Outcome.UNSAT)
        ∧ r.simTimeMs ≤ timeoutMs) := by
      rintro ⟨h | h, -⟩ <;> rw [hto] at h <;> exact Outcome.noConfusion h
    simp [hto, hns]
  · by_cases hs : (r.result = Outcome.SAT ∨ r.result = Outcome.UNSAT)
        ∧ r.simTimeMs ≤ timeoutMs
    · simp [hto, hs]
    · simp [hto, hs]

/-- The `time_vals` list of lines 441-460 is exactly the spec PAR-2
contribution of each non-ERROR/UNKNOWN seed. -/
theorem filterMap_par2TimeValue (timeoutMs : ℚ) (l : List RunRecord) :
    l.filterMap (par2TimeValue timeoutMs)
      = (l.filter (fun r => ! isExcludedOutcome r.result)).map
          (specPar2Contribution timeoutMs) := by
  induction l with
  | nil => rfl
  | cons r t ih =>
    by_cases hexc : isExcludedOutcome r.result
    · simp [List.filterMap_cons, List.filter_cons, hexc, par2TimeValue, ih]
    · simp [List.filterMap_cons, List.filter_cons, hexc,
        par2TimeValue_eq_some timeoutMs r hexc, ih]

/-- C6 counterexample: with timeout 1000 ms, seeds {SAT, 500 ms} and
{TIMEOUT}, the combined outcome is the SAT-labelled "SAT 1" — yet the
emitted aggregate has NO `effective_time_ms` (all numeric fields are
cleared, `fields = none`), while the claim's formula would demand the
mean (500 + 2000) / 2 = 1250.  The claim is false for suffixed SAT/UNSAT
aggregates. -/
theorem C6_effective_time_counterexample :
    (aggregateCase 1000 [⟨"x", Outcome.SAT, 500, []⟩, ⟨"x", Outcome.TIMEOUT, 2000, []⟩]).result
      = .suffixed Outcome.SAT 1 ∧
    (aggregateCase 1000 [⟨"x", Outcome.SAT, 500, []⟩, ⟨"x", Outcome.TIMEOUT, 2000, []⟩]).fields
      = none ∧
    ((([⟨"x", Outcome.SAT, 500, []⟩, ⟨"x", Outcome.TIMEOUT, 2000, []⟩] :
          List RunRecord).filter (fun r => ! isExcludedOutcome r.result)).map
        (specPar2Contribution 1000)).sum
      / (([⟨"x", Outcome.SAT, 500, []⟩, ⟨"x", Outcome.TIMEOUT, 2000, []⟩] :
          List RunRecord).filter (fun r => ! isExcludedOutcome r.result)).length
      = 1250 := by
  refine ⟨by decide, by decide, ?_⟩
  have h1 : (([⟨"x", Outcome.SAT, 500, []⟩, ⟨"x", Outcome.TIMEOUT, 2000, []⟩] :
        List RunRecord).filter (fun r => ! isExcludedOutcome r.result))
      = [⟨"x", Outcome.SAT, 500, []⟩, ⟨"x", Outcome.TIMEOUT, 2000, []⟩] := rfl
  rw [h1]
  have h2 : List.map (specPar2Contribution 1000)
      [⟨"x", Outcome.SAT, 500, []⟩, ⟨"x", Outcome.TIMEOUT, 2000, []⟩]
      = [500, 2000] := by
    norm_num [specPar2Contribution]
  rw [h2]
  norm_num

/-- C6 amended: for a multi-seed aggregate whose combined outcome is
exactly SAT, exactly UNSAT, or TIMEOUT-primary (with or without
suffix), the numeric payload is present and `effective_time_ms`
(`sim_time_ms` of the aggregate) is the mean, over every seed except
those with outcome ERROR or UNKNOWN, of the seed's elapsed time if its
outcome is SAT or UNSAT within the timeout and of the PAR-2 penalty
`2 × timeout` for TIMEOUT or over-time seeds.  (Aggregates with a
dissent suffix and a non-TIMEOUT primary label are cleared instead —
see C10.) -/
theorem C6_effective_time_amended (timeoutMs : ℚ) (e : RunRecord) (es : List RunRecord)
    (h : (aggregateCase timeoutMs (e :: es)).result = .pure Outcome.SAT ∨
         (aggregateCase timeoutMs (e :: es)).result = .pure Outcome.UNSAT ∨
         (aggregateCase timeoutMs (e :: es)).result.primary = Outcome.TIMEOUT) :
    ∃ f, (aggregateCase timeoutMs (e :: es)).fields = some f ∧
      f.simTimeMs =
        (((e :: es).filter (fun r => ! isExcludedOutcome r.result)).map
            (specPar2Contribution timeoutMs)).sum
          / ((e :: es).filter (fun r => ! isExcludedOutcome r.result)).length := by
  rw [aggregateCase_result] at h
  have hclear : clearCondition (combineLabels e.result (es.map RunRecord.result))
      = false := by
    unfold clearCondition
    rcases h with h | h | h
    · rw [h]; decide
    · rw [h]; decide
    · cases hc : combineLabels e.result (es.map RunRecord.result) with
      | pure o =>
        rw [hc] at h
        simp [CombinedLabel.primary] at h
        simp [CombinedLabel.primary, CombinedLabel.hasSuffix, h]
      | suffixed o k =>
        rw [hc] at h
        simp [CombinedLabel.primary] at h
        simp [CombinedLabel.primary, CombinedLabel.hasSuffix, h]
  simp only [aggregateCase, hclear, Bool.false_eq_true, if_false]
  refine ⟨_, rfl, ?_⟩
  rw [filterMap_par2TimeValue, avgOf_eq_sum_div_length, List.length_map]

/-- Witness for C6 amended, the spec's scenario: seeds {SAT, 500 ms} and
{SAT, 700 ms} with timeout 1000 ms give combined outcome "SAT" and
`effective_time_ms = 600`. -/
theorem C6_effective_time_amended_witness :
    (aggregateCase 1000 [⟨"x", Outcome.SAT, 500, []⟩, ⟨"x", Outcome.SAT, 700, []⟩]).result
      = .pure Outcome.SAT ∧
    ∃ f, (aggregateCase 1000
        [⟨"x", Outcome.SAT, 500, []⟩, ⟨"x", Outcome.SAT, 700, []⟩]).fields = some f ∧
      f.simTimeMs = 600 := by
  refine ⟨by decide, ?_⟩
  obtain ⟨f, hf, hv⟩ := C6_effective_time_amended 1000 ⟨"x", Outcome.SAT, 500, []⟩
    [⟨"x", Outcome.SAT, 700, []⟩] (Or.inl (by decide))
  refine ⟨f, hf, ?_⟩
  rw [hv]
  have h1 : (([⟨"x", Outcome.SAT, 500, []⟩, ⟨"x", Outcome.SAT, 700, []⟩] :
        List RunRecord).filter (fun r => ! isExcludedOutcome r.result))
      = [⟨"x", Outcome.SAT, 500, []⟩, ⟨"x", Outcome.SAT, 700, []⟩] := rfl
  rw [h1]
  have h2 : List.map (specPar2Contribution 1000)
      [⟨"x", Outcome.SAT, 500, []⟩, ⟨"x", Outcome.SAT, 700, []⟩]
      = [500, 700] := by
    norm_num [specPar2Contribution]
  rw [h2]
  norm_num

/-- `{r['test_case']: r for r in res}` (tools/parse_results.py line 297):
seed-map lookup; on duplicate test cases the later record wins, as in a
Python dict comprehension. -/
def lookupCase (rs : List RunRecord) (c : String) : Option RunRecord :=
  rs.reverse.find? (fun r => r.testCase = c)

/-- The union of test cases across seeds (lines 281-284): a Python set,
modelled as a duplicate-free list (set iteration order is unspecified and
only commutative folds are applied to it; additional cases discovered
from stats-CSV file names on disk are outside the record model). -/
def allCasesOf (seeds : List (List RunRecord)) : List String :=
  (seeds.foldl (fun acc rs => acc ++ rs.map RunRecord.testCase) []).dedup

/-- `all(case in per_seed_excluded[i] ...)` of line 489: the case is
ERROR/UNKNOWN-excluded in every seed that has it; the per-seed excluded
lists are the third component of `_compute_par2_and_solved`. -/
def allExcludedForCase (timeoutMs : ℚ) (seeds : List (List RunRecord)) (c : String) : Bool :=
  seeds.all (fun rs =>
    !(lookupCase rs c).isSome || (computePar2AndSolved timeoutMs rs).2.2.contains c)

/-- The minimal PAR-2 contribution of one case across seeds (lines
494-514): starting from the penalty, ERROR/UNKNOWN seeds are skipped and
each remaining seed contributes the same value as in `time_vals`
(lines 502-512 repeat the `par2TimeValue` computation). -/
def bestContrib (timeoutMs : ℚ) (seeds : List (List RunRecord)) (c : String) : ℚ :=
  (seeds.filterMap (fun rs => (lookupCase rs c).bind (par2TimeValue timeoutMs))).foldl
    min (2 * timeoutMs)

/-- The best-of-seeds PAR-2 score (lines 479-521): the mean over
non-skipped cases of the minimal per-seed contribution, in seconds;
`none` when there is no case or no valid case (the source leaves
`best_par2_seconds = None`). -/
def bestOfSeedsPar2 (timeoutMs : ℚ) (seeds : List (List RunRecord)) : Option ℚ :=
  let cases := allCasesOf seeds
  if cases = [] then none
  else
    let valid := cases.filter (fun c => ! allExcludedForCase timeoutMs seeds c)
    if 0 < valid.length then
      some ((valid.map (bestContrib timeoutMs seeds)).sum / valid.length / 1000)
    else none

/-- The average-of-seeds PAR-2 score (lines 276-307 and 467): the mean of
the per-seed PAR-2 scores. -/
def avgOfSeedsPar2 (timeoutMs : ℚ) (seeds : List (List RunRecord)) : ℚ :=
  avgOf (seeds.map (fun rs => (computePar2AndSolved timeoutMs rs).1))

/-- Population 1 refuting C4: seed0 holds only instance "a" (solved
instantly), seed1 holds "a" and a TIMEOUT instance "b" — the seeds do
not cover the same instances. -/
def c4SeedsCex : List (List RunRecord) :=
  [[⟨"a", Outcome.SAT, 0, []⟩],
   [⟨"a", Outcome.SAT, 0, []⟩, ⟨"b", Outcome.TIMEOUT, 0, []⟩]]

/-- Population 2 refuting C4: one seed with TWO records for the same
instance "a" (e.g. two timestamped logs of one test case), one within
and one over the timeout — the seed-map dict comprehension (line 297)
keeps only the last, penalized record for the best-of computation while
the per-seed average folds over both. -/
def c4SeedsDup : List (List RunRecord) :=
  [[⟨"a", Outcome.SAT, 0, []⟩, ⟨"a", Outcome.SAT, 1500, []⟩]]

/-- Population 3 refuting C4: instance "a" is ERROR in seed1 only — the
ERROR seed is dropped from both computations, but it drags seed1's
per-seed PAR-2 to 0.0 and hence the average below the best-of value. -/
def c4SeedsErr : List (List RunRecord) :=
  [[⟨"a", Outcome.SAT, 10, []⟩], [⟨"a", Outcome.ERROR, 0, []⟩]]

/-- C4 counterexample: with timeout 1000 ms the claimed inequality
`best-of-seeds ≤ average-of-seeds` fails on three concrete populations,
one per condition the amendment must impose: `c4SeedsCex` (seeds cover
different instance sets): best 1 s > average 0.5 s; `c4SeedsDup` (a seed
holds duplicate records for one instance): best 2 s > average 1 s;
`c4SeedsErr` (an ERROR record): best 0.01 s > average 0.005 s. -/
theorem C4_best_le_avg_counterexample :
    (bestOfSeedsPar2 1000 c4SeedsCex = some 1 ∧
     avgOfSeedsPar2 1000 c4SeedsCex = 1 / 2 ∧
     ¬ ((1 : ℚ) ≤ 1 / 2)) ∧
    (bestOfSeedsPar2 1000 c4SeedsDup = some 2 ∧
     avgOfSeedsPar2 1000 c4SeedsDup = 1 ∧
     ¬ ((2 : ℚ) ≤ 1)) ∧
    (bestOfSeedsPar2 1000 c4SeedsErr = some (1 / 100) ∧
     avgOfSeedsPar2 1000 c4SeedsErr = 1 / 200 ∧
     ¬ ((1 / 100 : ℚ) ≤ 1 / 200)) := by
  refine ⟨⟨?_, ?_, by norm_num⟩, ⟨?_, ?_, by norm_num⟩, ⟨?_, ?_, by norm_num⟩⟩
  · have hba : bestContrib 1000 c4SeedsCex "a" = List.foldl min (2 * 1000) [(0 : ℚ), 0] :=
      rfl
    have hbb : bestContrib 1000 c4SeedsCex "b" = List.foldl min (2 * 1000) [2 * 1000] :=
      rfl
    have hba' : bestContrib 1000 c4SeedsCex "a" = 0 := by
      rw [hba]; norm_num [List.foldl_cons, List.foldl_nil, min_def]
    have hbb' : bestContrib 1000 c4SeedsCex "b" = 2000 := by
      rw [hbb]; norm_num [List.foldl_cons, List.foldl_nil, min_def]
    have hshape : bestOfSeedsPar2 1000 c4SeedsCex
        = some (([bestContrib 1000 c4SeedsCex "a", bestContrib 1000 c4SeedsCex "b"]).sum
            / (2 : ℕ) / 1000) := rfl
    rw [hshape, hba', hbb']
    norm_num
  · have hshape : avgOfSeedsPar2 1000 c4SeedsCex
      = avgOf [(computePar2AndSolved 1000 (c4SeedsCex.get ⟨0, by norm_num [c4SeedsCex]⟩)).1,
               (computePar2AndSolved 1000 (c4SeedsCex.get ⟨1, by norm_num [c4SeedsCex]⟩)).1] :=
      rfl
    have h0 : (computePar2AndSolved 1000 (c4SeedsCex.get ⟨0, by norm_num [c4SeedsCex]⟩)).1
        = ((0 : ℚ) + 0) / (1 : ℕ) / 1000 := rfl
    have h1 : (computePar2AndSolved 1000 (c4SeedsCex.get ⟨1, by norm_num [c4SeedsCex]⟩)).1
        = ((0 : ℚ) + 0 + 2 * 1000) / (2 : ℕ) / 1000 := rfl
    rw [hshape, h0, h1, avgOf_eq_sum_div_length]
    norm_num [List.sum_cons, List.sum_nil]
  · have hba : bestContrib 1000 c4SeedsDup "a" = List.foldl min (2 * 1000) [2 * 1000] :=
      rfl
    have hba' : bestContrib 1000 c4SeedsDup "a" = 2000 := by
      rw [hba]; norm_num [List.foldl_cons, List.foldl_nil, min_def]
    have hshape : bestOfSeedsPar2 1000 c4SeedsDup
        = some (([bestContrib 1000 c4SeedsDup "a"]).sum / (1 : ℕ) / 1000) := rfl
    rw [hshape, hba']
    norm_num
  · have hshape : avgOfSeedsPar2 1000 c4SeedsDup
      = avgOf [(computePar2AndSolved 1000 (c4SeedsDup.get ⟨0, by norm_num [c4SeedsDup]⟩)).1] :=
      rfl
    have h0 : (computePar2AndSolved 1000 (c4SeedsDup.get ⟨0, by norm_num [c4SeedsDup]⟩)).1
        = ((0 : ℚ) + 0 + 2 * 1000) / (2 : ℕ) / 1000 := rfl
    rw [hshape, h0, avgOf_eq_sum_div_length]
    norm_num [List.sum_cons, List.sum_nil]
  · have hba : bestContrib 1000 c4SeedsErr "a" = List.foldl min (2 * 1000) [(10 : ℚ)] :=
      rfl
    have hba' : bestContrib 1000 c4SeedsErr "a" = 10 := by
      rw [hba]; norm_num [List.foldl_cons, List.foldl_nil, min_def]
    have hshape : bestOfSeedsPar2 1000 c4SeedsErr
        = some (([bestContrib 1000 c4SeedsErr "a"]).sum / (1 : ℕ) / 1000) := rfl
    rw [hshape, hba']
    norm_num
  · have hshape : avgOfSeedsPar2 1000 c4SeedsErr
      = avgOf [(computePar2AndSolved 1000 (c4SeedsErr.get ⟨0, by norm_num [c4SeedsErr]⟩)).1,
               (computePar2AndSolved 1000 (c4SeedsErr.get ⟨1, by norm_num [c4SeedsErr]⟩)).1] :=
      rfl
    have h0 : (computePar2AndSolved 1000 (c4SeedsErr.get ⟨0, by norm_num [c4SeedsErr]⟩)).1
        = ((0 : ℚ) + 10) / (1 : ℕ) / 1000 := rfl
    have h1 : (computePar2AndSolved 1000 (c4SeedsErr.get ⟨1, by norm_num [c4SeedsErr]⟩)).1
        = 0 := rfl
    rw [hshape, h0, h1, avgOf_eq_sum_div_length]
    norm_num [List.sum_cons, List.sum_nil]

/-- `foldl min` stays below its start value. -/
theorem foldl_min_le_init (l : List ℚ) (a : ℚ) : l.foldl min a ≤ a := by
  induction l generalizing a with
  | nil => exact le_refl a
  | cons c t ih => exact le_trans (ih (min a c)) (min_le_left a c)

/-- `foldl min` stays below every list element. -/
theorem foldl_min_le_mem (l : List ℚ) (a x : ℚ) (hx : x ∈ l) : l.foldl min a ≤ x := by
  induction l generalizing a with
  | nil => cases hx
  | cons c t ih =>
    rcases List.mem_cons.mp hx with rfl | hxt
    · exact le_trans (foldl_min_le_init t (min a x)) (min_le_right a x)
    · exact ih (min a c) hxt

/-- A lower bound of every element bounds the mean. -/
theorem le_avgOf_of_forall_le (l : List ℚ) (b : ℚ) (hne : l ≠ [])
    (h : ∀ x ∈ l, b ≤ x) : b ≤ avgOf l := by
  have hsum : ∀ m : List ℚ, (∀ x ∈ m, b ≤ x) → b * m.length ≤ m.sum := by
    intro m
    induction m with
    | nil => intro _; simp
    | cons c t ih =>
      intro hm
      have hc : b ≤ c := hm c (List.mem_cons_self c t)
      have ht := ih (fun x hx => hm x (List.mem_cons_of_mem c hx))
      simp only [List.length_cons, List.sum_cons]
      push_cast
      linarith
  have hlen : (0 : ℚ) < l.length := by
    have hne0 : l.length ≠ 0 := fun h0 => hne (List.length_eq_zero.mp h0)
    exact_mod_cast Nat.pos_of_ne_zero hne0
  rw [avgOf_eq_sum_div_length]
  exact (le_div_iff₀ hlen).mpr (hsum l h)

/-- With duplicate-free test cases, looking a record's own case up in its
seed returns it. -/
theorem lookupCase_self (rs : List RunRecord) (hnd : (rs.map RunRecord.testCase).Nodup)
    (r : RunRecord) (hr : r ∈ rs) : lookupCase rs r.testCase = some r := by
  unfold lookupCase
  cases hfind : rs.reverse.find? (fun x => x.testCase = r.testCase) with
  | none =>
    exfalso
    have := List.find?_eq_none.mp hfind r (List.mem_reverse.mpr hr)
    simp at this
  | some x =>
    have hx_mem : x ∈ rs.reverse := List.mem_of_find?_eq_some hfind
    have hx_p := List.find?_some hfind
    have hx_case : x.testCase = r.testCase := by simpa using hx_p
    have hinj := List.inj_on_of_nodup_map hnd
    rw [hinj (List.mem_reverse.mp hx_mem) hr hx_case]

/-- Membership in the fold-accumulated case union. -/
theorem mem_casesFold (seeds : List (List RunRecord)) (acc : List String) (x : String) :
    x ∈ seeds.foldl (fun acc rs => acc ++ rs.map RunRecord.testCase) acc
      ↔ x ∈ acc ∨ ∃ rs ∈ seeds, x ∈ rs.map RunRecord.testCase := by
  induction seeds generalizing acc with
  | nil => simp
  | cons s t ih =>
    rw [List.foldl_cons, ih]
    simp only [List.mem_append, List.mem_cons]
    constructor
    · rintro ((h | h) | ⟨rs, hrs, hx⟩)
      · exact Or.inl h
      · exact Or.inr ⟨s, Or.inl rfl, h⟩
      · exact Or.inr ⟨rs, Or.inr hrs, hx⟩
    · rintro (h | ⟨rs, (rfl | hrs), hx⟩)
      · exact Or.inl (Or.inl h)
      · exact Or.inl (Or.inr hx)
      · exact Or.inr ⟨rs, hrs, hx⟩

/-- Membership in the union of test cases across seeds. -/
theorem mem_allCasesOf (seeds : List (List RunRecord)) (x : String) :
    x ∈ allCasesOf seeds ↔ ∃ rs ∈ seeds, x ∈ rs.map RunRecord.testCase := by
  unfold allCasesOf
  rw [List.mem_dedup, mem_casesFold]
  simp

/-- `_compute_par2_and_solved` on an all-finished seed: empty excluded
list and the plain contribution mean. -/
theorem computePar2_all_ok (timeoutMs : ℚ) (rs : List RunRecord) (hner : rs ≠ [])
    (hok : ∀ r ∈ rs, ¬ isExcludedOutcome r.result) :
    (computePar2AndSolved timeoutMs rs).1
      = (rs.map (specPar2Contribution timeoutMs)).sum / (rs.length : ℚ) / 1000 ∧
    (computePar2AndSolved timeoutMs rs).2.2 = [] := by
  have hfilself : rs.filter (fun r => ! isExcludedOutcome r.result) = rs :=
    List.filter_eq_self.mpr (fun r hr => by simpa using hok r hr)
  have hfilnil : rs.filter (fun r => isExcludedOutcome r.result) = [] := by
    rw [List.filter_eq_nil_iff]
    intro r hr
    simpa using hok r hr
  obtain ⟨h1, -, h3⟩ := par2_foldl_spec timeoutMs rs ⟨0, 0, []⟩
  rw [hfilself] at h1
  rw [hfilnil] at h3
  simp only [List.map_nil, List.append_nil, List.nil_append] at h1 h3
  have hpos : 0 < rs.length := List.length_pos.mpr hner
  unfold computePar2AndSolved
  rw [if_neg hner]
  simp only [h3, List.length_nil, Nat.sub_zero, hpos, if_true, h1]
  simp

/-- C4 amended: best-of-seeds PAR-2 ≤ average-of-seeds PAR-2 holds for
every timeout and every population in which every seed holds exactly one
record per instance, all seeds cover the same instance set, and no
record has outcome ERROR or UNKNOWN.  The three counterexample
populations show that dropping any of the three conditions makes the
inequality fail. -/
theorem C4_best_le_avg_amended (timeoutMs : ℚ) (seeds : List (List RunRecord))
    (names : List String) (hseeds : seeds ≠ [])
    (hnodup : names.Nodup) (hnn : names ≠ [])
    (hcover : ∀ rs ∈ seeds, ∀ c : String,
      c ∈ rs.map RunRecord.testCase ↔ c ∈ names)
    (huniq : ∀ rs ∈ seeds, (rs.map RunRecord.testCase).Nodup)
    (hok : ∀ rs ∈ seeds, ∀ r ∈ rs, ¬ isExcludedOutcome r.result) :
    ∃ b, bestOfSeedsPar2 timeoutMs seeds = some b
      ∧ b ≤ avgOfSeedsPar2 timeoutMs seeds := by
  obtain ⟨s0, hs0⟩ := List.exists_mem_of_ne_nil seeds hseeds
  have hner : ∀ rs ∈ seeds, rs ≠ [] := by
    intro rs hrs h
    obtain ⟨c, hc⟩ := List.exists_mem_of_ne_nil names hnn
    have hmem := (hcover rs hrs c).mpr hc
    rw [h] at hmem
    simp at hmem
  have hperm : List.Perm (allCasesOf seeds) names := by
    have hnd : (allCasesOf seeds).Nodup := List.nodup_dedup _
    apply List.perm_of_nodup_nodup_toFinset_eq hnd hnodup
    ext x
    simp only [List.mem_toFinset]
    rw [mem_allCasesOf]
    constructor
    · rintro ⟨rs, hrs, hx⟩
      exact (hcover rs hrs x).mp hx
    · intro hx
      exact ⟨s0, hs0, (hcover s0 hs0 x).mpr hx⟩
  have hpermrs : ∀ rs ∈ seeds, List.Perm (rs.map RunRecord.testCase) names := by
    intro rs hrs
    apply List.perm_of_nodup_nodup_toFinset_eq (huniq rs hrs) hnodup
    ext x
    simp only [List.mem_toFinset]
    exact hcover rs hrs x
  have hcne : allCasesOf seeds ≠ [] := by
    intro h
    rw [h] at hperm
    exact hnn hperm.symm.eq_nil
  have hlook : ∀ rs ∈ seeds, ∀ r ∈ rs, lookupCase rs r.testCase = some r := by
    intro rs hrs r hr
    exact lookupCase_self rs (huniq rs hrs) r hr
  have hvalid : (allCasesOf seeds).filter
      (fun c => ! allExcludedForCase timeoutMs seeds c) = allCasesOf seeds := by
    apply List.filter_eq_self.mpr
    intro c hc
    have hcn : c ∈ names := hperm.mem_iff.mp hc
    have hc0 : c ∈ s0.map RunRecord.testCase := (hcover s0 hs0 c).mpr hcn
    obtain ⟨r, hr, hrc⟩ := List.mem_map.mp hc0
    have hfalse : allExcludedForCase timeoutMs seeds c = false := by
      apply Bool.eq_false_iff.mpr
      intro hall
      unfold allExcludedForCase at hall
      rw [List.all_eq_true] at hall
      have h0 := hall s0 hs0
      rw [← hrc, hlook s0 hs0 r hr,
        (computePar2_all_ok timeoutMs s0 (hner s0 hs0) (hok s0 hs0)).2] at h0
      simp at h0
    rw [hfalse]
    rfl
  have hlenpos : 0 < (allCasesOf seeds).length := List.length_pos.mpr hcne
  have hbest : bestOfSeedsPar2 timeoutMs seeds
      = some (((allCasesOf seeds).map (bestContrib timeoutMs seeds)).sum
          / ((allCasesOf seeds).length : ℚ) / 1000) := by
    simp only [bestOfSeedsPar2]
    rw [hvalid, if_neg hcne, if_pos hlenpos]
  refine ⟨_, hbest, ?_⟩
  have hlen_names : (allCasesOf seeds).length = names.length := hperm.length_eq
  have hbound : ∀ rs ∈ seeds,
      ((allCasesOf seeds).map (bestContrib timeoutMs seeds)).sum
        / ((allCasesOf seeds).length : ℚ) / 1000
      ≤ (computePar2AndSolved timeoutMs rs).1 := by
    intro rs hrs
    rw [(computePar2_all_ok timeoutMs rs (hner rs hrs) (hok rs hrs)).1]
    have hpm := hpermrs rs hrs
    have hsum_perm : ((allCasesOf seeds).map (bestContrib timeoutMs seeds)).sum
        = (names.map (bestContrib timeoutMs seeds)).sum :=
      (hperm.map (bestContrib timeoutMs seeds)).sum_eq
    have hsum_le : (names.map (bestContrib timeoutMs seeds)).sum
        ≤ (rs.map (specPar2Contribution timeoutMs)).sum := by
      rw [← (hpm.map (bestContrib timeoutMs seeds)).sum_eq, List.map_map]
      apply List.sum_le_sum
      intro r hr
      apply foldl_min_le_mem
      apply List.mem_filterMap.mpr
      refine ⟨rs, hrs, ?_⟩
      rw [hlook rs hrs r hr]
      exact par2TimeValue_eq_some timeoutMs r (hok rs hrs r hr)
    have hrs_len : rs.length = (allCasesOf seeds).length := by
      have h1 : rs.length = (rs.map RunRecord.testCase).length :=
        (List.length_map rs RunRecord.testCase).symm
      rw [h1, hpm.length_eq, hlen_names]
    rw [hrs_len]
    have hcast : (0 : ℚ) < ((allCasesOf seeds).length : ℚ) := by exact_mod_cast hlenpos
    gcongr
    rw [hsum_perm]
    exact hsum_le
  unfold avgOfSeedsPar2
  apply le_avgOf_of_forall_le
  · simp [hseeds]
  · intro x hx
    obtain ⟨rs, hrs, rfl⟩ := List.mem_map.mp hx
    exact hbound rs hrs

/-- Witness for C4 amended: two seeds over the single instance "a",
solved in 100 ms and 300 ms — one record per instance per seed, the same
instance set everywhere, no ERROR/UNKNOWN — so the best-of-seeds score
exists and is below the average-of-seeds score. -/
theorem C4_best_le_avg_amended_witness :
    ∃ b, bestOfSeedsPar2 1000
        [[⟨"a", Outcome.SAT, 100, []⟩], [⟨"a", Outcome.SAT, 300, []⟩]] = some b
      ∧ b ≤ avgOfSeedsPar2 1000
        [[⟨"a", Outcome.SAT, 100, []⟩], [⟨"a", Outcome.SAT, 300, []⟩]] := by
  apply C4_best_le_avg_amended 1000 _ ["a"]
  · exact List.cons_ne_nil _ _
  · simp
  · simp
  · intro rs hrs c
    rcases List.mem_cons.mp hrs with rfl | hrs1
    · exact Iff.rfl
    · rcases List.mem_cons.mp hrs1 with rfl | hrs2
      · exact Iff.rfl
      · cases hrs2
  · intro rs hrs
    rcases List.mem_cons.mp hrs with rfl | hrs1
    · simp
    · rcases List.mem_cons.mp hrs1 with rfl | hrs2
      · simp
      · cases hrs2
  · intro rs hrs r hr
    rcases List.mem_cons.mp hrs with rfl | hrs1
    · rw [List.mem_singleton.mp hr]
      decide
    · rcases List.mem_cons.mp hrs1 with rfl | hrs2
      · rw [List.mem_singleton.mp hr]
        decide
      · cases hrs2

/-- `totals[key_str] = totals.get(key_str, 0) + samples` on a Python
dict, modelled on an association list: an existing key is updated in
place, a fresh key appends (dict insertion order). -/
def upsertAdd : List (String × ℕ) → String → ℕ → List (String × ℕ)
  | [], k, v => [(k, v)]
  | (q, w) :: rest, k, v =>
    if q = k then (q, w + v) :: rest else (q, w) :: upsertAdd rest k v

/-- `aggregate_bins(results, histogram_key)` of tools/parse_histogram.py
(lines 54-74): sum `samples` across runs for identical bin keys, skipping
zero-sample bins.  A run's histogram is given as its (bin key string,
samples) pairs. -/
def aggregateBins (results : List (List (String × ℕ))) : List (String × ℕ) :=
  results.foldl
    (fun totals bins =>
      bins.foldl (fun t p => if p.2 = 0 then t else upsertAdd t p.1 p.2) totals)
    []

/-- `totals.get(key_str, 0)`. -/
def lookupCount (m : List (String × ℕ)) (k : String) : ℕ :=
  ((m.find? (fun p => p.1 = k)).map Prod.snd).getD 0

/-- The percent column written by `write_csv` of tools/parse_histogram.py
(lines 111-124): each merged bin's percentage is recomputed as its summed
count over the grand total of all summed counts × 100 (0 when the grand
total is 0); the row ordering of the CSV is a permutation of `totals`
and does not affect these values. -/
def binPercentages (totals : List (String × ℕ)) : List (String × ℚ) :=
  let grand := (totals.map Prod.snd).sum
  totals.map (fun p => (p.1, if 0 < grand then (p.2 : ℚ) / grand * 100 else 0))

/-- Upserting adds to the stored count of the key and nothing else. -/
theorem lookupCount_upsertAdd (m : List (String × ℕ)) (k : String) (v : ℕ) (q : String) :
    lookupCount (upsertAdd m k v) q = lookupCount m q + (if q = k then v else 0) := by
  induction m with
  | nil =>
    by_cases h : q = k
    · subst h
      simp [upsertAdd, lookupCount]
    · have hkq : (decide (k = q)) = false := decide_eq_false (fun hh => h hh.symm)
      simp [upsertAdd, lookupCount, List.find?, hkq, h]
  | cons a rest ih =>
    obtain ⟨ak, av⟩ := a
    by_cases hk : ak = k
    · subst hk
      by_cases hq : ak = q
      · subst hq
        simp [upsertAdd, lookupCount, List.find?]
      · have hqa : ¬ q = ak := fun hh => hq hh.symm
        simp [upsertAdd, lookupCount, List.find?, hq, hqa]
    · by_cases hq : ak = q
      · subst hq
        simp [upsertAdd, lookupCount, List.find?, hk]
      · have hqa : ¬ q = ak := fun hh => hq hh.symm
        simp only [upsertAdd, if_neg hk]
        have hlk : ∀ mm : List (String × ℕ),
            lookupCount ((ak, av) :: mm) q = lookupCount mm q := by
          intro mm
          have hq2 : (decide (ak = q)) = false := decide_eq_false hq
          simp [lookupCount, List.find?, hq2]
        rw [hlk, hlk, ih]

/-- One run's inner loop adds, per key, the run's matching sample counts
(zero-sample bins are skipped but contribute zero anyway). -/
theorem lookupCount_binsFold (bins : List (String × ℕ)) (t : List (String × ℕ)) (q : String) :
    lookupCount (bins.foldl (fun t p => if p.2 = 0 then t else upsertAdd t p.1 p.2) t) q
      = lookupCount t q + ((bins.filter (fun p => p.1 = q)).map Prod.snd).sum := by
  induction bins generalizing t with
  | nil => simp
  | cons p ps ih =>
    rw [List.foldl_cons, ih]
    by_cases hq : p.1 = q
    · have hfil : List.filter (fun p => decide (p.1 = q)) (p :: ps)
          = p :: List.filter (fun p => decide (p.1 = q)) ps := by
        rw [List.filter_cons, if_pos (by simpa using hq)]
      rw [hfil, List.map_cons, List.sum_cons]
      by_cases hz : p.2 = 0
      · rw [if_pos hz, hz]
        omega
      · rw [if_neg hz, lookupCount_upsertAdd, if_pos hq.symm]
        omega
    · have hfil : List.filter (fun p => decide (p.1 = q)) (p :: ps)
          = List.filter (fun p => decide (p.1 = q)) ps := by
        rw [List.filter_cons, if_neg (by simpa using hq)]
      rw [hfil]
      by_cases hz : p.2 = 0
      · rw [if_pos hz]
      · rw [if_neg hz, lookupCount_upsertAdd,
          if_neg (fun hh : q = p.1 => hq hh.symm)]
        omega

/-- The outer loop of `aggregate_bins` accumulates the per-run sums. -/
theorem lookupCount_aggLoop (results : List (List (String × ℕ)))
    (t : List (String × ℕ)) (q : String) :
    lookupCount (results.foldl
        (fun totals bins =>
          bins.foldl (fun t p => if p.2 = 0 then t else upsertAdd t p.1 p.2) totals) t) q
      = lookupCount t q
        + (results.map (fun bins =>
            ((bins.filter (fun p => p.1 = q)).map Prod.snd).sum)).sum := by
  induction results generalizing t with
  | nil => simp
  | cons bins rest ih =>
    rw [List.foldl_cons, ih, lookupCount_binsFold]
    simp [add_assoc]

/-- Every count stored by `upsertAdd` with a positive addend stays
positive. -/
theorem upsertAdd_pos (m : List (String × ℕ)) (k : String) (v : ℕ)
    (hm : ∀ p ∈ m, 0 < p.2) (hv : 0 < v) : ∀ p ∈ upsertAdd m k v, 0 < p.2 := by
  induction m with
  | nil =>
    intro p hp
    have hpe : p = (k, v) := by simpa [upsertAdd] using hp
    rw [hpe]
    exact hv
  | cons a rest ih =>
    obtain ⟨ak, av⟩ := a
    intro p hp
    by_cases hk : ak = k
    · rw [upsertAdd, if_pos hk] at hp
      rcases List.mem_cons.mp hp with hpe | hmem
      · have h0 := hm (ak, av) (List.mem_cons_self _ _)
        rw [hpe]
        simp only at h0 ⊢
        omega
      · exact hm p (List.mem_cons_of_mem _ hmem)
    · rw [upsertAdd, if_neg hk] at hp
      rcases List.mem_cons.mp hp with hpe | hmem
      · rw [hpe]
        exact hm (ak, av) (List.mem_cons_self _ _)
      · exact ih (fun r hr => hm r (List.mem_cons_of_mem _ hr)) p hmem

/-- Every count in a merged histogram is positive. -/
theorem aggregateBins_pos (results : List (List (String × ℕ))) :
    ∀ p ∈ aggregateBins results, 0 < p.2 := by
  unfold aggregateBins
  have hinner : ∀ (bs : List (String × ℕ)) (t0 : List (String × ℕ)),
      (∀ p ∈ t0, 0 < p.2) →
      ∀ p ∈ bs.foldl (fun t p => if p.2 = 0 then t else upsertAdd t p.1 p.2) t0,
        0 < p.2 := by
    intro bs
    induction bs with
    | nil => intro t0 ht0; simpa using ht0
    | cons b bt ihb =>
      intro t0 ht0
      rw [List.foldl_cons]
      apply ihb
      by_cases hz : b.2 = 0
      · rw [if_pos hz]
        exact ht0
      · rw [if_neg hz]
        exact upsertAdd_pos t0 b.1 b.2 ht0 (Nat.pos_of_ne_zero hz)
  have hgen : ∀ (rs : List (List (String × ℕ))) (t : List (String × ℕ)),
      (∀ p ∈ t, 0 < p.2) →
      ∀ p ∈ rs.foldl (fun totals bins =>
          bins.foldl (fun t p => if p.2 = 0 then t else upsertAdd t p.1 p.2) totals) t,
        0 < p.2 := by
    intro rs
    induction rs with
    | nil => intro t ht; simpa using ht
    | cons bins rest ih =>
      intro t ht
      rw [List.foldl_cons]
      exact ih _ (hinner bins t ht)
  exact hgen results [] (by simp)

/-- Sum of count-proportional terms over an association list factors
through the total. -/
theorem sum_map_div_mul (l : List (String × ℕ)) (g : ℚ) :
    (l.map (fun p => (p.2 : ℚ) / g * 100)).sum
      = (((l.map Prod.snd).sum : ℕ) : ℚ) / g * 100 := by
  induction l with
  | nil => simp
  | cons c t ih =>
    simp only [List.map_cons, List.sum_cons, ih]
    push_cast
    ring

/-- The percentages of a merged histogram with a positive grand total sum
to exactly 100. -/
theorem binPercentages_sum (totals : List (String × ℕ))
    (hg : 0 < (totals.map Prod.snd).sum) :
    ((binPercentages totals).map Prod.snd).sum = 100 := by
  unfold binPercentages
  simp only [if_pos hg]
  rw [List.map_map]
  have hcongr : totals.map (Prod.snd ∘ fun p =>
      (p.1, ((p.2 : ℚ) / (((totals.map Prod.snd).sum : ℕ) : ℚ) * 100 : ℚ)))
      = totals.map (fun p =>
        ((p.2 : ℚ) / (((totals.map Prod.snd).sum : ℕ) : ℚ) * 100 : ℚ)) := rfl
  rw [hcongr, sum_map_div_mul]
  have hg0 : (((totals.map Prod.snd).sum : ℕ) : ℚ) ≠ 0 := by
    exact_mod_cast Nat.pos_iff_ne_zero.mp hg
  rw [div_self hg0, one_mul]

/-- C8: the raw-percentage histogram merge sums sample counts across runs
for identical bin keys (zero-sample bins contribute nothing), then
recomputes each merged bin's percentage as its summed count over the
grand total of all summed counts × 100; consequently, for every nonempty
merged histogram the bin percentages sum to exactly 100 (hence within
any positive relative tolerance, in particular 1e-6).  Stored per-run
percentages are not part of the merge input at all. -/
theorem C8_histogram_merge (results : List (List (String × ℕ))) :
    (∀ q : String, lookupCount (aggregateBins results) q
        = (results.map (fun bins =>
            ((bins.filter (fun p => p.1 = q)).map Prod.snd).sum)).sum) ∧
    (aggregateBins results ≠ [] →
      ((binPercentages (aggregateBins results)).map Prod.snd).sum = 100) := by
  constructor
  · intro q
    unfold aggregateBins
    rw [lookupCount_aggLoop]
    simp [lookupCount]
  · intro hne
    apply binPercentages_sum
    obtain ⟨a, t, htots⟩ : ∃ a t, aggregateBins results = a :: t := by
      cases h : aggregateBins results with
      | nil => exact absurd h hne
      | cons a t => exact ⟨a, t, rfl⟩
    have ha : 0 < a.2 := aggregateBins_pos results a (by rw [htots]; exact List.mem_cons_self a t)
    rw [htots, List.map_cons, List.sum_cons]
    omega

/-- Witness for C8: merging runs {x:3, y:2} and {x:1, z:0} gives counts
x=4, y=2 (z dropped as zero-sample) and percentages summing to 100. -/
theorem C8_histogram_merge_witness :
    lookupCount (aggregateBins [[("x", 3), ("y", 2)], [("x", 1), ("z", 0)]]) "x" = 4 ∧
    aggregateBins [[("x", 3), ("y", 2)], [("x", 1), ("z", 0)]] ≠ [] ∧
    ((binPercentages (aggregateBins
        [[("x", 3), ("y", 2)], [("x", 1), ("z", 0)]])).map Prod.snd).sum = 100 := by
  refine ⟨?_, ?_, ?_⟩
  · have h := (C8_histogram_merge [[("x", 3), ("y", 2)], [("x", 1), ("z", 0)]]).1 "x"
    rw [h]
    decide
  · decide
  · exact (C8_histogram_merge [[("x", 3), ("y", 2)], [("x", 1), ("z", 0)]]).2 (by decide)

/-- A histogram bin key as consumed by `aggregate_histogram`: an exact
integer, a "lo-hi" range (split from the string form), or the
`out_of_bounds` sentinel. -/
inductive BinKey where
  | exact : ℤ → BinKey
  | range : ℤ → ℤ → BinKey
  | overflow : BinKey
deriving DecidableEq, Repr

/-- The per-test scan state of `aggregate_histogram`
(tools/plot_prop_histogram.py lines 96-145): in-range counts, detailed
out-of-bound (weight, count) contributions, their count total, and the
bin-0 count. -/
structure HistScan where
  counts : ℤ → ℕ
  oobDetails : List (ℚ × ℕ)
  oobTotal : ℕ
  bin0 : ℕ

/-- One iteration of the per-test bin loop (lines 104-145): zero-count
bins are skipped; `out_of_bounds` is weighted 25; a range starting below
1 feeds bin 0 (at 0) or is dropped (negative); a range starting at or
above the threshold is weighted by its midpoint `(lo+hi)/2`; an in-range
range is credited to the bin of its start value; exact indices behave
likewise with their own index as weight above the threshold. -/
def histStep (threshold : ℤ) (st : HistScan) (p : BinKey × ℕ) : HistScan :=
  if p.2 = 0 then st
  else
    match p.1 with
    | .overflow =>
        { st with oobDetails := st.oobDetails ++ [(25, p.2)],
                  oobTotal := st.oobTotal + p.2 }
    | .range lo hi =>
        if lo < 1 then
          if lo = 0 then { st with bin0 := st.bin0 + p.2 } else st
        else if threshold ≤ lo then
          { st with oobDetails := st.oobDetails ++ [(((lo : ℚ) + (hi : ℚ)) / 2, p.2)],
                    oobTotal := st.oobTotal + p.2 }
        else
          { st with counts := fun j => if j = lo then st.counts j + p.2 else st.counts j }
    | .exact i =>
        if i < 1 then
          if i = 0 then { st with bin0 := st.bin0 + p.2 } else st
        else if threshold ≤ i then
          { st with oobDetails := st.oobDetails ++ [((i : ℚ), p.2)],
                    oobTotal := st.oobTotal + p.2 }
        else
          { st with counts := fun j => if j = i then st.counts j + p.2 else st.counts j }

/-- `inrange_indices = list(range(1, threshold))`. -/
def inrangeIndices (threshold : ℕ) : List ℤ :=
  (List.range' 1 (threshold - 1)).map (fun n => (n : ℤ))

/-- The per-test index-weighted percentage row (lines 153-166): `none`
models the `continue` on a zero total (the test then does not count into
`num_tests`); the denominator includes bin 0, the in-range bins and all
out-of-bound counts. -/
def perTestWeighted (threshold : ℕ) (bins : List (BinKey × ℕ)) : Option (List ℚ) :=
  let st := bins.foldl (histStep (threshold : ℤ)) ⟨fun _ => 0, [], 0, 0⟩
  let total : ℕ :=
    st.bin0 + ((inrangeIndices threshold).map (fun i => st.counts i)).sum + st.oobTotal
  if total = 0 then none
  else
    some (((inrangeIndices threshold).map
        (fun i => (Int.cast i : ℚ) * ((st.counts i : ℚ) / (total : ℚ) * 100)))
      ++ [(st.oobDetails.map (fun wc => wc.1 * ((wc.2 : ℚ) / (total : ℚ) * 100))).sum])

/-- The index-weighted output of `aggregate_histogram` (lines 63-182):
per-test weighted rows are summed elementwise and divided by the number
of contributing tests (empty when no test contributed). -/
def aggregateHistogramWeighted (numBins : ℕ) (runs : List (List (BinKey × ℕ))) :
    List ℚ :=
  let threshold := numBins - 1
  let per := runs.filterMap (perTestWeighted threshold)
  if per = [] then []
  else
    (per.foldl (fun acc l => List.zipWith (· + ·) acc l)
        (List.replicate threshold 0)).map (fun v => v / (per.length : ℚ))

/-- C9 counterexample: for the spec's scenario bins
`{1:40, 2:30, "3-5":20, out_of_bounds:10}` (with the code's 11 display
bins), the index-weighted output at the "3-5" bin is `3 × 20 = 60` —
the range is credited to bin 3 and weighted by its start index 3, not by
the midpoint 4, which would give `4 × 20 = 80`.  Midpoint weighting only
applies to ranges at or above the overflow threshold. -/
theorem C9_midpoint_counterexample :
    aggregateHistogramWeighted 11
        [[(BinKey.exact 1, 40), (BinKey.exact 2, 30), (BinKey.range 3 5, 20),
          (BinKey.overflow, 10)]]
      = [40, 60, 60, 0, 0, 0, 0, 0, 0, 250] ∧
    (60 : ℚ) ≠ 4 * 20 := by
  constructor
  · norm_num [aggregateHistogramWeighted, perTestWeighted, histStep, inrangeIndices,
      List.range', List.filterMap_cons, List.zipWith, List.replicate]
  · norm_num

/-- C9 amended: the index-weighted distribution multiplies each bin's
per-run percentage by a representative weight before averaging across
runs — the exact index for an Exact(n) bin, the START value for a
Range(lo,hi) bin below the overflow threshold (credited to bin lo), the
midpoint `(lo+hi)/2` for a Range bin at or above the threshold, and the
fixed constant 25 for the Overflow bin.  For the scenario bins
`{1, 2, "3-5", out_of_bounds}` the weights are 1, 2, 3 and 25, and a
"12-19" bin would be weighted `31/2`. -/
theorem C9_weights_amended (c1 c2 c3 c4 c5 : ℕ)
    (h1 : 0 < c1) (h2 : 0 < c2) (h3 : 0 < c3) (h4 : 0 < c4) (h5 : 0 < c5) :
    aggregateHistogramWeighted 11
        [[(BinKey.exact 1, c1), (BinKey.exact 2, c2), (BinKey.range 3 5, c3),
          (BinKey.overflow, c4), (BinKey.range 12 19, c5)]]
      = [1 * ((c1 : ℚ) / ((c1 + c2 + c3 + c4 + c5 : ℕ) : ℚ) * 100),
         2 * ((c2 : ℚ) / ((c1 + c2 + c3 + c4 + c5 : ℕ) : ℚ) * 100),
         3 * ((c3 : ℚ) / ((c1 + c2 + c3 + c4 + c5 : ℕ) : ℚ) * 100),
         0, 0, 0, 0, 0, 0,
         25 * ((c4 : ℚ) / ((c1 + c2 + c3 + c4 + c5 : ℕ) : ℚ) * 100)
           + 31 / 2 * ((c5 : ℚ) / ((c1 + c2 + c3 + c4 + c5 : ℕ) : ℚ) * 100)] := by
  have hn1 : c1 ≠ 0 := h1.ne'
  have hn2 : c2 ≠ 0 := h2.ne'
  have hn3 : c3 ≠ 0 := h3.ne'
  have hn4 : c4 ≠ 0 := h4.ne'
  have hn5 : c5 ≠ 0 := h5.ne'
  norm_num [aggregateHistogramWeighted, perTestWeighted, histStep, inrangeIndices,
    List.range', List.filterMap_cons, List.zipWith, List.replicate,
    hn1, hn2, hn3, hn4, hn5]
  refine ⟨?_, ?_, ?_, ?_⟩ <;> ring_nf

/-- Witness for C9 amended at the scenario counts (40, 30, 20, 10) plus
a high-range bin of 10: the weighted row uses weights 1, 2, 3, 25 and
31/2 over the total 110. -/
theorem C9_weights_amended_witness :
    ((0 : ℕ) < 40 ∧ (0 : ℕ) < 30 ∧ (0 : ℕ) < 20 ∧ (0 : ℕ) < 10) ∧
    aggregateHistogramWeighted 11
        [[(BinKey.exact 1, 40), (BinKey.exact 2, 30), (BinKey.range 3 5, 20),
          (BinKey.overflow, 10), (BinKey.range 12 19, 10)]]
      = [1 * (((40 : ℕ) : ℚ) / ((40 + 30 + 20 + 10 + 10 : ℕ) : ℚ) * 100),
         2 * (((30 : ℕ) : ℚ) / ((40 + 30 + 20 + 10 + 10 : ℕ) : ℚ) * 100),
         3 * (((20 : ℕ) : ℚ) / ((40 + 30 + 20 + 10 + 10 : ℕ) : ℚ) * 100),
         0, 0, 0, 0, 0, 0,
         25 * (((10 : ℕ) : ℚ) / ((40 + 30 + 20 + 10 + 10 : ℕ) : ℚ) * 100)
           + 31 / 2 * (((10 : ℕ) : ℚ) / ((40 + 30 + 20 + 10 + 10 : ℕ) : ℚ) * 100)] :=
  ⟨⟨by norm_num, by norm_num, by norm_num, by norm_num⟩,
   C9_weights_amended 40 30 20 10 10 (by norm_num) (by norm_num) (by norm_num)
     (by norm_num) (by norm_num)⟩

/-- `\s` of the regex engine (ASCII whitespace). -/
def isSpaceChar (c : Char) : Bool :=
  c = ' ' ∨ c = '\t' ∨ c = '\n' ∨ c = '\r' ∨ c = '\x0b' ∨ c = '\x0c'

/-- `\w` (ASCII word character; the logs are ASCII). -/
def isWordChar (c : Char) : Bool :=
  c.isAlphanum ∨ c = '_'

/-- `[\d.]`. -/
def isDigitOrDot (c : Char) : Bool :=
  c.isDigit ∨ c = '.'

/-- List-of-characters prefix test. -/
def listStartsWith : List Char → List Char → Bool
  | [], _ => true
  | _ :: _, [] => false
  | p :: ps, c :: cs => (p = c : Bool) && listStartsWith ps cs

/-- After the digit-dot run `d` (taken maximally), the regex engine
backtracks over its length: the tail `\s*(\w+)` is tried after the first
`k` kept characters for `k = |d|, |d|-1, ..., 1` — `\s*` is maximal and
never itself backtracks here, since word and space characters are
disjoint.  Returns the two capture groups on success. -/
def matchGroups (d : List Char) (after : List Char) : ℕ → Option (List Char × List Char)
  | 0 => none
  | k + 1 =>
    let rest := d.drop (k + 1) ++ after
    let rest2 := rest.dropWhile isSpaceChar
    let w := rest2.takeWhile isWordChar
    if w ≠ [] then some (d.take (k + 1), w) else matchGroups d after k

/-- The literal head of the pattern
`Simulation is complete, simulated time: ([\d.]+)\s*(\w+)` of
tools/unified_parser.py line 553. -/
def simTimeMarker : List Char := "Simulation is complete, simulated time: ".data

/-- `re.search` for that pattern: the leftmost position where the whole
pattern matches wins; a position where the literal matches but the tail
does not is skipped and the scan continues one character on.  Returns
the (VALUE, UNIT) capture groups. -/
def searchSimTime : List Char → Option (List Char × List Char)
  | [] => none
  | c :: cs =>
    if listStartsWith simTimeMarker (c :: cs) then
      let restAll := (c :: cs).drop simTimeMarker.length
      let d := restAll.takeWhile isDigitOrDot
      match if d = [] then none else matchGroups d (restAll.drop d.length) d.length with
      | some g => some g
      | none => searchSimTime cs
    else searchSimTime cs

/-- Digit run to a natural number. -/
def digitsToNat (ds : List Char) : ℕ :=
  ds.foldl (fun a c => 10 * a + (c.toNat - 48)) 0

/-- Python `float` applied to a `[\d.]+` capture: accepts digits with at
most one dot and at least one digit ("5", "2.5", "5.", ".5"); "." or a
string with two dots raises `ValueError`, modelled as `none`. -/
def parseFloatQ (s : List Char) : Option ℚ :=
  let ip := s.takeWhile Char.isDigit
  match s.drop ip.length with
  | [] => if ip = [] then none else some (digitsToNat ip : ℚ)
  | c :: fp =>
    if c = '.' ∧ fp.all Char.isDigit ∧ (ip ≠ [] ∨ fp ≠ []) then
      some ((digitsToNat ip : ℚ) + (digitsToNat fp : ℚ) / 10 ^ fp.length)
    else none

/-- The simulated-time extraction of `parse_satsolver_log`
(tools/unified_parser.py lines 552-561): the matched VALUE is scaled by
unit — `us` × 0.001 (here `1/1000`), `s` × 1000, and any other matched
unit, `ms` included, × 1 (the code has no `ms` branch); no pattern match
leaves the default 0, as does an unparseable VALUE (whose `float()`
raises into the enclosing `try`, leaving the field at its default). -/
def extractSimTimeMs (content : String) : ℚ :=
  match searchSimTime content.data with
  | none => 0
  | some (v, u) =>
    match parseFloatQ v with
    | none => 0
    | some x =>
      if u = "us".data then x * (1 / 1000)
      else if u = "s".data then x * 1000
      else x

/-- C7 counterexample: a present-but-unrecognized unit does NOT leave
`elapsed_time_ms` at 0 — for "simulated time: 5 ns" the extractor stores
5 (the raw value, multiplier 1). -/
theorem C7_unknown_unit_counterexample :
    searchSimTime "Simulation is complete, simulated time: 5 ns".data
      = some ("5".data, "ns".data) ∧
    extractSimTimeMs "Simulation is complete, simulated time: 5 ns" = 5 ∧
    (5 : ℚ) ≠ 0 := by
  refine ⟨by decide, ?_, by norm_num⟩
  have hval : extractSimTimeMs "Simulation is complete, simulated time: 5 ns"
      = ((5 : ℕ) : ℚ) := rfl
  rw [hval]
  norm_num

/-- C7 amended: the extractor parses `elapsed_time_ms` from the
"simulated time: VALUE UNIT" occurrence found by the pattern search and
scales the parsed value by fixed multipliers — `us` × 1/1000, `s` × 1000,
`ms` × 1; a matched unit outside {us, s} (hence also any unrecognized
unit) likewise gets multiplier 1, and only a failed pattern search (e.g.
a missing unit, which the pattern requires) leaves the value at 0. -/
theorem C7_sim_time_amended (content : String) :
    (∀ v u x, searchSimTime content.data = some (v, u) → parseFloatQ v = some x →
      ((u = "us".data → extractSimTimeMs content = x * (1 / 1000)) ∧
       (u = "s".data → extractSimTimeMs content = x * 1000) ∧
       (u = "ms".data → extractSimTimeMs content = x) ∧
       (u ≠ "us".data → u ≠ "s".data → extractSimTimeMs content = x))) ∧
    (searchSimTime content.data = none → extractSimTimeMs content = 0) := by
  constructor
  · intro v u x hs hp
    have hext : extractSimTimeMs content
        = (if u = "us".data then x * (1 / 1000)
           else if u = "s".data then x * 1000 else x) := by
      unfold extractSimTimeMs
      rw [hs]
      show (match parseFloatQ v with
        | none => (0 : ℚ)
        | some x =>
          if u = "us".data then x * (1 / 1000)
          else if u = "s".data then x * 1000 else x) = _
      rw [hp]
    refine ⟨?_, ?_, ?_, ?_⟩
    · intro hu
      rw [hext, if_pos hu]
    · intro hu
      rw [hext]
      rw [if_neg (by rw [hu]; decide), if_pos hu]
    · intro hu
      rw [hext]
      rw [if_neg (by rw [hu]; decide), if_neg (by rw [hu]; decide)]
    · intro hu1 hu2
      rw [hext, if_neg hu1, if_neg hu2]
  · intro hs
    unfold extractSimTimeMs
    rw [hs]

/-- Witness for C7 amended: "simulated time: 2.5 us" is matched with
unit `us` and scaled by 1/1000; a content without the marker yields 0. -/
theorem C7_sim_time_amended_witness :
    (searchSimTime "Simulation is complete, simulated time: 2.5 us".data
      = some ("2.5".data, "us".data)) ∧
    (∃ x, parseFloatQ "2.5".data = some x ∧
      extractSimTimeMs "Simulation is complete, simulated time: 2.5 us"
        = x * (1 / 1000)) ∧
    (searchSimTime "no timing here".data = none ∧
      extractSimTimeMs "no timing here" = 0) := by
  have hs : searchSimTime "Simulation is complete, simulated time: 2.5 us".data
      = some ("2.5".data, "us".data) := by decide
  have hn : searchSimTime "no timing here".data = none := by decide
  refine ⟨hs, ⟨_, rfl, ?_⟩, hn, (C7_sim_time_amended "no timing here").2 hn⟩
  exact ((C7_sim_time_amended "Simulation is complete, simulated time: 2.5 us").1
    "2.5".data "us".data _ hs rfl).1 rfl
